import Mathlib

/-!
Shallow embedding of the heat-diffusion core of the thermos2 repository.

Sources embedded here:
- HeatSimulation (src/App.tsx, the per-frame stencil update, pinning and
  convergence bookkeeping),
- HeatSourceControl (src/App.tsx, pin / unpin / edit-forced-value handlers),
- the grid-rebuild effect of ThermalModel (src/App.tsx) and the dimension
  input handler (src/components/floorDimensions.tsx).

Temperatures are rationals; the flat row-major temperature array is a
List of rationals; the JS Record of heat sources keyed by the string
"row-col" is an association list keyed by the pair (row, col).
-/

/-- The heatSources record of the app: cell id (row, col) mapped to the
pinned (forced) temperature of that cell. -/
abbrev HS : Type := List ((Nat × Nat) × ℚ)

/-- Lookup of a cell id in the heatSources record; mirrors
heatSources[cellId] with cellId the template string of row and col. -/
def lookupHS (hs : HS) (row col : Nat) : Option ℚ := List.lookup (row, col) hs

/-- The discrete Laplacian of HeatSimulation: the four axis neighbors are
read from the pre-step array gridTemps, and a neighbor that would fall
outside the grid is replaced by the cell's own value T (the guards are the
source's col greater than 0, col less than width - 1, row greater than 0,
row less than height - 1). -/
def laplacian (width height : Nat) (gridTemps : List ℚ) (row col : Nat) : ℚ :=
  let T := gridTemps.getD (row * width + col) 0
  let T_left := if 0 < col then gridTemps.getD (row * width + (col - 1)) 0 else T
  let T_right := if col < width - 1 then gridTemps.getD (row * width + (col + 1)) 0 else T
  let T_up := if 0 < row then gridTemps.getD ((row - 1) * width + col) 0 else T
  let T_down := if row < height - 1 then gridTemps.getD ((row + 1) * width + col) 0 else T
  T_left + T_right + T_up + T_down - 4 * T

/-- The per-cell increment dT of HeatSimulation:
dT = diffusionRate * delta * laplacian. -/
def cellDT (width height : Nat) (gridTemps : List ℚ) (delta diffusionRate : ℚ)
    (row col : Nat) : ℚ :=
  diffusionRate * delta * laplacian width height gridTemps row col

/-- The new value HeatSimulation writes at one cell: the pinned value when
the cell is a heat source, otherwise T + dT. -/
def stepCell (width height : Nat) (gridTemps : List ℚ) (heatSources : HS)
    (delta diffusionRate : ℚ) (row col : Nat) : ℚ :=
  match lookupHS heatSources row col with
  | some v => v
  | none =>
      gridTemps.getD (row * width + col) 0 +
        cellDT width height gridTemps delta diffusionRate row col

/-- The newTemps array of HeatSimulation: a copy of gridTemps, overwritten
at index row * width + col for every row below height and col below width
(row-major double loop); all reads come from the pre-step gridTemps. -/
def newTemps (width height : Nat) (gridTemps : List ℚ) (heatSources : HS)
    (delta diffusionRate : ℚ) : List ℚ :=
  (List.range height).foldl
    (fun acc row =>
      (List.range width).foldl
        (fun acc2 col =>
          acc2.set (row * width + col)
            (stepCell width height gridTemps heatSources delta diffusionRate row col))
        acc)
    gridTemps

/-- The maxDiff accumulator of HeatSimulation: starting from 0, every
non-pinned cell contributes max of the accumulator and the absolute value
of its dT; pinned cells are skipped by the continue. -/
def maxDiff (width height : Nat) (gridTemps : List ℚ) (heatSources : HS)
    (delta diffusionRate : ℚ) : ℚ :=
  (List.range height).foldl
    (fun acc row =>
      (List.range width).foldl
        (fun acc2 col =>
          match lookupHS heatSources row col with
          | some _ => acc2
          | none =>
              max acc2 |cellDT width height gridTemps delta diffusionRate row col|)
        acc)
    0

/-- A grid field: dimensions, flat row-major temperature array, pinned
heat sources. -/
structure GridField where
  width : Nat
  height : Nat
  temps : List ℚ
  heatSources : HS

/-- One simulation step on a field: the new temperature snapshot together
with the maxAbsoluteChange of the step. -/
def step (f : GridField) (delta diffusionRate : ℚ) : GridField × ℚ :=
  ({ f with temps := newTemps f.width f.height f.temps f.heatSources delta diffusionRate },
    maxDiff f.width f.height f.temps f.heatSources delta diffusionRate)

/-- Iterated simulation steps. -/
def iterateStep (f : GridField) (delta diffusionRate : ℚ) : Nat → GridField
  | 0 => f
  | n + 1 => (step (iterateStep f delta diffusionRate n) delta diffusionRate).1

/-- The same double loop as newTemps but visiting rows and columns in
reverse order; used to express that the update order is irrelevant. -/
def newTempsRev (width height : Nat) (gridTemps : List ℚ) (heatSources : HS)
    (delta diffusionRate : ℚ) : List ℚ :=
  ((List.range height).reverse).foldl
    (fun acc row =>
      ((List.range width).reverse).foldl
        (fun acc2 col =>
          acc2.set (row * width + col)
            (stepCell width height gridTemps heatSources delta diffusionRate row col))
        acc)
    gridTemps

/-- The row-major list of all cells of the grid, exactly the visiting
order of the double loop in HeatSimulation. -/
def allCells (height width : Nat) : List (Nat × Nat) :=
  (List.range height).flatMap (fun row => (List.range width).map (fun col => (row, col)))

/-- Fold with skip and max, the shape of the maxDiff accumulator. -/
def maxFoldF {α : Type} (g : α → Option ℚ) (a : ℚ) (l : List α) : ℚ :=
  l.foldl (fun acc x => match g x with | none => acc | some q => max acc q) a

/-- The grid-rebuild effect of ThermalModel: for each row below height and
col below width, push the Leva control value for that cell when present,
otherwise the ambient (indoor) temperature. -/
def buildTemps (height width : Nat) (controlsValues : Nat → Nat → Option ℚ)
    (ambient : ℚ) : List ℚ :=
  (List.range height).flatMap (fun row =>
    (List.range width).map (fun col =>
      match controlsValues row col with
      | some v => v
      | none => ambient))

/-- The rebuild with integer dimensions as produced by parseInt in
FloorDimensionsInput: a JS for loop counting up from 0 while below an
integer bound runs (bound.toNat) iterations, so a non-positive dimension
yields zero iterations. -/
def buildTempsZ (height width : ℤ) (controlsValues : Nat → Nat → Option ℚ)
    (ambient : ℚ) : List ℚ :=
  buildTemps height.toNat width.toNat controlsValues ambient

/-- Insertion into the heatSources record, modelling the JS object spread
with an overwritten key: lookup of the inserted key finds the new value,
all other keys are unaffected. -/
def hsInsert (hs : HS) (key : Nat × Nat) (v : ℚ) : HS :=
  (key, v) :: hs.filter (fun e => e.1 != key)

/-- Deletion from the heatSources record, modelling delete copy[key]. -/
def hsDelete (hs : HS) (key : Nat × Nat) : HS :=
  hs.filter (fun e => e.1 != key)

/-- The relevant state of ThermalModel: dimensions, gridTemps,
heatSources, isSimulating. -/
structure AppState where
  height : Nat
  width : Nat
  gridTemps : List ℚ
  heatSources : HS
  isSimulating : Bool

/-- The pin handler of HeatSourceControl: the selected cell becomes a heat
source whose forced value is the cell's current temperature
(gridTemps[index] with fallback 22); gridTemps itself is not touched. -/
def pinCell (s : AppState) (row col : Nat) : AppState :=
  { s with heatSources :=
      hsInsert s.heatSources (row, col) (s.gridTemps.getD (row * s.width + col) 22) }

/-- The unpin handler of HeatSourceControl: the entry is deleted from the
heatSources record; gridTemps is not touched. -/
def unpinCell (s : AppState) (row col : Nat) : AppState :=
  { s with heatSources := hsDelete s.heatSources (row, col) }

/-- The forced-value edit handler of HeatSourceControl: the entry of the
selected (pinned) cell is overwritten with the new value; gridTemps is not
touched. -/
def editSourceValue (s : AppState) (row col : Nat) (v : ℚ) : AppState :=
  { s with heatSources := hsInsert s.heatSources (row, col) v }

/-- One useFrame tick of HeatSimulation at app level: an early return when
not simulating or the grid is empty; otherwise the snapshot is replaced by
newTemps with the hard-coded diffusionRate 1/10, and isSimulating is
cleared when maxDiff falls below 1/1000. -/
def frameUpdate (s : AppState) (delta : ℚ) : AppState :=
  if s.isSimulating = false ∨ s.gridTemps.length = 0 then s
  else
    { s with
      gridTemps := newTemps s.width s.height s.gridTemps s.heatSources delta (1/10),
      isSimulating :=
        if maxDiff s.width s.height s.gridTemps s.heatSources delta (1/10) < 1/1000
        then false else s.isSimulating }

/-- The dimension-change path: FloorDimensionsInput updates the dimensions
and the ThermalModel effect rebuilds gridTemps from the control values and
the ambient temperature 22 and restarts the simulation; heatSources is not
part of the effect. -/
def changeDimensions (s : AppState) (height width : Nat)
    (controlsValues : Nat → Nat → Option ℚ) : AppState :=
  { height := height, width := width,
    gridTemps := buildTemps height width controlsValues 22,
    heatSources := s.heatSources,
    isSimulating := true }

/-- A controls update: the same rebuild effect fired by a controlsValues
change with dimensions unchanged. -/
def updateControls (s : AppState) (controlsValues : Nat → Nat → Option ℚ) : AppState :=
  { s with
    gridTemps := buildTemps s.height s.width controlsValues 22,
    isSimulating := true }

/-- The initial app state after the first rebuild effect: the default
10 by 10 grid at ambient temperature 22, no heat sources, simulating. -/
def initState : AppState :=
  { height := 10, width := 10,
    gridTemps := buildTemps 10 10 (fun _ _ => none) 22,
    heatSources := [],
    isSimulating := true }

/-- States of ThermalModel reachable through the user-visible events: pin
or unpin a selected (hence rendered, in-range) zone, edit the forced value
of a pinned zone, an animation frame, a dimension change, a controls
update. -/
inductive Reachable : AppState → Prop
  | init : Reachable initState
  | pin (s : AppState) (row col : Nat) : Reachable s →
      row < s.height → col < s.width → Reachable (pinCell s row col)
  | unpin (s : AppState) (row col : Nat) : Reachable s → Reachable (unpinCell s row col)
  | edit (s : AppState) (row col : Nat) (v : ℚ) : Reachable s →
      lookupHS s.heatSources row col ≠ none → Reachable (editSourceValue s row col v)
  | frame (s : AppState) (delta : ℚ) : Reachable s → Reachable (frameUpdate s delta)
  | resize (s : AppState) (height width : Nat) (controlsValues : Nat → Nat → Option ℚ) :
      Reachable s → Reachable (changeDimensions s height width controlsValues)
  | controls (s : AppState) (controlsValues : Nat → Nat → Option ℚ) :
      Reachable s → Reachable (updateControls s controlsValues)

/-! Helper lemmas about lists, folds and sums used to analyse the loops of
HeatSimulation. -/

/-- Reading back the index just written by List.set. -/
lemma getD_set_self : ∀ (l : List ℚ) (i : Nat) (v : ℚ), i < l.length →
    (l.set i v).getD i 0 = v := by
  intro l
  induction l with
  | nil => intro i v h; simp at h
  | cons a t ih =>
    intro i v h
    cases i with
    | zero => rfl
    | succ n =>
      have := ih n v (by simpa using h)
      simpa [List.set] using this

/-- List.set leaves every other index unchanged. -/
lemma getD_set_other : ∀ (l : List ℚ) (i j : Nat) (v : ℚ), i ≠ j →
    (l.set i v).getD j 0 = l.getD j 0 := by
  intro l
  induction l with
  | nil => intro i j v _; rfl
  | cons a t ih =>
    intro i j v hij
    cases i with
    | zero =>
      cases j with
      | zero => exact absurd rfl hij
      | succ m => rfl
    | succ n =>
      cases j with
      | zero => rfl
      | succ m =>
        have := ih n m v (by omega)
        simpa [List.set] using this

/-- A fold over a concatenation of blocks is the nested fold. -/
lemma foldl_flatMap {α β γ : Type} (l : List α) (g : α → List β) (f : γ → β → γ) (a : γ) :
    (l.flatMap g).foldl f a = l.foldl (fun acc x => (g x).foldl f acc) a := by
  induction l generalizing a with
  | nil => rfl
  | cons x xs ih => simp [List.foldl_append, ih]

/-- Splitting List.range of a sum. -/
lemma range_add_eq (n m : Nat) :
    List.range (n + m) = List.range n ++ (List.range m).map (fun i => n + i) := by
  induction m with
  | zero => simp
  | succ k ih =>
    rw [Nat.add_succ, List.range_succ, ih, List.range_succ]
    simp

/-- Membership in allCells is being in range. -/
lemma mem_allCells {height width : Nat} {p : Nat × Nat} :
    p ∈ allCells height width ↔ p.1 < height ∧ p.2 < width := by
  cases p with
  | mk r c =>
    simp only [allCells, List.mem_flatMap, List.mem_map, List.mem_range, Prod.mk.injEq]
    constructor
    · rintro ⟨a, ha, b, hb, h1, h2⟩
      exact ⟨h1 ▸ ha, h2 ▸ hb⟩
    · rintro ⟨h1, h2⟩
      exact ⟨r, h1, c, h2, rfl, rfl⟩

/-- The flat indexes of allCells in row-major order are exactly the
initial segment of the naturals. -/
lemma allCells_map_idx (height width : Nat) :
    (allCells height width).map (fun p => p.1 * width + p.2) = List.range (height * width) := by
  induction height with
  | zero => simp [allCells]
  | succ h ih =>
    rw [allCells, List.range_succ, List.flatMap_append, List.map_append, ← allCells, ih,
      Nat.succ_mul, range_add_eq]
    simp [List.map_map, Function.comp]

/-- A fold that only writes via List.set preserves the length. -/
lemma setFold_length {α : Type} (idx : α → Nat) (val : α → ℚ) :
    ∀ (l : List α) (acc : List ℚ),
      (l.foldl (fun a q => a.set (idx q) (val q)) acc).length = acc.length := by
  intro l
  induction l with
  | nil => intro acc; rfl
  | cons q qs ih =>
    intro acc
    rw [List.foldl_cons, ih, List.length_set]

/-- A fold of writes at indexes all different from j does not change the
entry at j. -/
lemma setFold_getD_frame {α : Type} (idx : α → Nat) (val : α → ℚ) :
    ∀ (l : List α) (acc : List ℚ) (j : Nat), (∀ q ∈ l, idx q ≠ j) →
      (l.foldl (fun a q => a.set (idx q) (val q)) acc).getD j 0 = acc.getD j 0 := by
  intro l
  induction l with
  | nil => intro acc j _; rfl
  | cons q qs ih =>
    intro acc j hj
    rw [List.foldl_cons, ih _ _ (fun x hx => hj x (List.mem_cons_of_mem _ hx)),
      getD_set_other _ _ _ _ (hj q (List.mem_cons_self _ _))]

/-- A fold of writes at pairwise distinct in-range indexes stores, at the
index of each visited element, the value of that element. -/
lemma setFold_getD_mem {α : Type} (idx : α → Nat) (val : α → ℚ) :
    ∀ (l : List α) (acc : List ℚ), (l.map idx).Nodup →
      (∀ q ∈ l, idx q < acc.length) →
      ∀ p ∈ l, (l.foldl (fun a q => a.set (idx q) (val q)) acc).getD (idx p) 0 = val p := by
  intro l
  induction l with
  | nil => intro acc _ _ p hp; simp at hp
  | cons q qs ih =>
    intro acc hnd hlt p hp
    have hnd' : (q :: qs).map idx = idx q :: qs.map idx := rfl
    rw [hnd'] at hnd
    rcases List.nodup_cons.mp hnd with ⟨hq, hqs⟩
    rw [List.foldl_cons]
    rcases List.mem_cons.mp hp with h | h
    · subst h
      have hfr : ∀ x ∈ qs, idx x ≠ idx p := by
        intro x hx hEq
        exact hq (hEq ▸ List.mem_map_of_mem idx hx)
      rw [setFold_getD_frame idx val qs _ _ hfr,
        getD_set_self _ _ _ (hlt p (List.mem_cons_self _ _))]
    · exact ih _ hqs
        (fun x hx => by rw [List.length_set]; exact hlt x (List.mem_cons_of_mem _ hx)) p h

/-- Flat index of an in-range cell is below the cell count. -/
lemma index_lt {row col height width : Nat} (hr : row < height) (hc : col < width) :
    row * width + col < height * width := by
  have h1 : row * width + col < row * width + width := Nat.add_lt_add_left hc _
  have h2 : row * width + width = (row + 1) * width := (Nat.succ_mul row width).symm
  have h3 : (row + 1) * width ≤ height * width := Nat.mul_le_mul_right width hr
  exact lt_of_lt_of_le (h2 ▸ h1) h3

/-- The double loop of HeatSimulation as a single fold over the row-major
cell list. -/
lemma newTemps_eq_setFold (width height : Nat) (gridTemps : List ℚ) (hs : HS)
    (delta diffusionRate : ℚ) :
    newTemps width height gridTemps hs delta diffusionRate =
      (allCells height width).foldl
        (fun a p => a.set (p.1 * width + p.2)
          (stepCell width height gridTemps hs delta diffusionRate p.1 p.2))
        gridTemps := by
  rw [allCells, foldl_flatMap]
  unfold newTemps
  congr 1
  funext acc row
  rw [List.foldl_map]

/-- The reversed double loop as a single fold over the reversed cell list. -/
lemma newTempsRev_eq_setFold (width height : Nat) (gridTemps : List ℚ) (hs : HS)
    (delta diffusionRate : ℚ) :
    newTempsRev width height gridTemps hs delta diffusionRate =
      ((allCells height width).reverse).foldl
        (fun a p => a.set (p.1 * width + p.2)
          (stepCell width height gridTemps hs delta diffusionRate p.1 p.2))
        gridTemps := by
  have hrev : (allCells height width).reverse =
      ((List.range height).reverse).flatMap
        (fun row => ((List.range width).reverse).map (fun col => (row, col))) := by
    rw [allCells]
    induction (List.range height) with
    | nil => rfl
    | cons x xs ih => simp [List.flatMap_append, ih]
  rw [hrev, foldl_flatMap]
  unfold newTempsRev
  congr 1
  funext acc row
  rw [List.foldl_map]

/-- The step snapshot has the same length as the input array. -/
lemma newTemps_length (width height : Nat) (gridTemps : List ℚ) (hs : HS)
    (delta diffusionRate : ℚ) :
    (newTemps width height gridTemps hs delta diffusionRate).length = gridTemps.length := by
  rw [newTemps_eq_setFold]
  exact setFold_length _ _ _ _

/-- The reversed step snapshot has the same length as the input array. -/
lemma newTempsRev_length (width height : Nat) (gridTemps : List ℚ) (hs : HS)
    (delta diffusionRate : ℚ) :
    (newTempsRev width height gridTemps hs delta diffusionRate).length = gridTemps.length := by
  rw [newTempsRev_eq_setFold]
  exact setFold_length _ _ _ _

/-- Characterization of the snapshot written by HeatSimulation: at every
in-range cell the entry is the per-cell value stepCell, provided the array
has the row-major length width * height. -/
lemma newTemps_getD (width height : Nat) (gridTemps : List ℚ) (hs : HS)
    (delta diffusionRate : ℚ) (hlen : gridTemps.length = width * height)
    (row col : Nat) (hr : row < height) (hc : col < width) :
    (newTemps width height gridTemps hs delta diffusionRate).getD (row * width + col) 0 =
      stepCell width height gridTemps hs delta diffusionRate row col := by
  rw [newTemps_eq_setFold]
  exact setFold_getD_mem (fun p => p.1 * width + p.2)
    (fun p => stepCell width height gridTemps hs delta diffusionRate p.1 p.2)
    (allCells height width) gridTemps
    (by rw [allCells_map_idx]; exact List.nodup_range _)
    (fun q hq => by
      rcases mem_allCells.mp hq with ⟨h1, h2⟩
      rw [hlen, Nat.mul_comm]
      exact index_lt h1 h2)
    (row, col) (mem_allCells.mpr ⟨hr, hc⟩)

/-- The reversed loop writes exactly the same values. -/
lemma newTempsRev_getD (width height : Nat) (gridTemps : List ℚ) (hs : HS)
    (delta diffusionRate : ℚ) (hlen : gridTemps.length = width * height)
    (row col : Nat) (hr : row < height) (hc : col < width) :
    (newTempsRev width height gridTemps hs delta diffusionRate).getD (row * width + col) 0 =
      stepCell width height gridTemps hs delta diffusionRate row col := by
  rw [newTempsRev_eq_setFold]
  exact setFold_getD_mem (fun p => p.1 * width + p.2)
    (fun p => stepCell width height gridTemps hs delta diffusionRate p.1 p.2)
    ((allCells height width).reverse) gridTemps
    (by
      rw [List.map_reverse, allCells_map_idx]
      exact List.nodup_reverse.mpr (List.nodup_range _))
    (fun q hq => by
      rcases mem_allCells.mp (List.mem_reverse.mp hq) with ⟨h1, h2⟩
      rw [hlen, Nat.mul_comm]
      exact index_lt h1 h2)
    (row, col) (List.mem_reverse.mpr (mem_allCells.mpr ⟨hr, hc⟩))

/-- Two rational lists of equal length and equal getD entries are equal. -/
lemma list_eq_of_getD : ∀ (a b : List ℚ), a.length = b.length →
    (∀ i, i < a.length → a.getD i 0 = b.getD i 0) → a = b := by
  intro a
  induction a with
  | nil =>
    intro b hlen _
    exact (List.length_eq_zero.mp hlen.symm).symm
  | cons x t ih =>
    intro b hlen h
    cases b with
    | nil => simp at hlen
    | cons y u =>
      have hx : x = y := h 0 (by simp)
      have ht : t = u := ih u (by simpa using hlen) (fun i hi => h (i + 1) (by simpa using hi))
      rw [hx, ht]

/-- The accumulator never decreases. -/
lemma maxFoldF_start_le {α : Type} (g : α → Option ℚ) :
    ∀ (l : List α) (a : ℚ), a ≤ maxFoldF g a l := by
  intro l
  induction l with
  | nil => intro a; exact le_refl a
  | cons x xs ih =>
    intro a
    cases hg : g x with
    | none => simpa [maxFoldF, hg] using ih a
    | some q =>
      have h1 : a ≤ max a q := le_max_left a q
      have h2 : max a q ≤ maxFoldF g (max a q) xs := ih (max a q)
      simpa [maxFoldF, hg] using le_trans h1 h2

/-- Every recorded contribution is below the fold result. -/
lemma maxFoldF_le_of_mem {α : Type} (g : α → Option ℚ) :
    ∀ (l : List α) (a : ℚ) (x : α) (q : ℚ), x ∈ l → g x = some q →
      q ≤ maxFoldF g a l := by
  intro l
  induction l with
  | nil => intro a x q hx _; simp at hx
  | cons y ys ih =>
    intro a x q hx hg
    rcases List.mem_cons.mp hx with h | h
    · subst h
      have h1 : q ≤ max a q := le_max_right a q
      have h2 : max a q ≤ maxFoldF g (max a q) ys := maxFoldF_start_le g ys (max a q)
      simpa [maxFoldF, hg] using le_trans h1 h2
    · cases hgy : g y with
      | none => simpa [maxFoldF, hgy] using ih a x q h hg
      | some r => simpa [maxFoldF, hgy] using ih (max a r) x q h hg

/-- The fold result is the start or one of the recorded contributions. -/
lemma maxFoldF_eq_start_or_mem {α : Type} (g : α → Option ℚ) :
    ∀ (l : List α) (a : ℚ), maxFoldF g a l = a ∨
      ∃ x ∈ l, g x = some (maxFoldF g a l) := by
  intro l
  induction l with
  | nil => intro a; exact Or.inl rfl
  | cons y ys ih =>
    intro a
    cases hgy : g y with
    | none =>
      rcases ih a with h | ⟨x, hx, hgx⟩
      · left; simpa [maxFoldF, hgy] using h
      · right
        exact ⟨x, List.mem_cons_of_mem _ hx, by simpa [maxFoldF, hgy] using hgx⟩
    | some q =>
      rcases ih (max a q) with h | ⟨x, hx, hgx⟩
      · have hM : maxFoldF g a (y :: ys) = max a q := by simpa [maxFoldF, hgy] using h
        rcases max_choice a q with hc | hc
        · left; rw [hM, hc]
        · right
          exact ⟨y, List.mem_cons_self _ _, by rw [hM, hc, hgy]⟩
      · right
        exact ⟨x, List.mem_cons_of_mem _ hx, by simpa [maxFoldF, hgy] using hgx⟩

/-- When every element is skipped the fold returns the start. -/
lemma maxFoldF_all_none {α : Type} (g : α → Option ℚ) :
    ∀ (l : List α) (a : ℚ), (∀ x ∈ l, g x = none) → maxFoldF g a l = a := by
  intro l
  induction l with
  | nil => intro a _; rfl
  | cons y ys ih =>
    intro a h
    have hy : g y = none := h y (List.mem_cons_self _ _)
    simpa [maxFoldF, hy] using ih a (fun x hx => h x (List.mem_cons_of_mem _ hx))

/-- The maxDiff double loop as a maxFoldF over the row-major cell list. -/
lemma maxDiff_eq_maxFoldF (width height : Nat) (gridTemps : List ℚ) (hs : HS)
    (delta diffusionRate : ℚ) :
    maxDiff width height gridTemps hs delta diffusionRate =
      maxFoldF (fun p => match lookupHS hs p.1 p.2 with
        | some _ => none
        | none => some |cellDT width height gridTemps delta diffusionRate p.1 p.2|)
        0 (allCells height width) := by
  rw [maxFoldF, allCells, foldl_flatMap]
  unfold maxDiff
  congr 1
  funext acc row
  rw [List.foldl_map]
  congr 1
  funext a col
  cases hv : lookupHS hs row col <;> simp [hv]

/-- The sum of a rational list as a sum of its getD entries. -/
lemma list_sum_getD : ∀ (l : List ℚ), l.sum = ∑ i in Finset.range l.length, l.getD i 0 := by
  intro l
  induction l with
  | nil => simp
  | cons a t ih =>
    have h2 : ∀ i, (a :: t).getD (i + 1) 0 = t.getD i 0 := fun i => rfl
    calc (a :: t).sum = a + t.sum := by simp
    _ = a + ∑ i in Finset.range t.length, t.getD i 0 := by rw [ih]
    _ = (∑ i in Finset.range t.length, (a :: t).getD (i + 1) 0) + (a :: t).getD 0 0 := by
          simp [h2, add_comm]
    _ = ∑ i in Finset.range (t.length + 1), (a :: t).getD i 0 := by
          rw [Finset.sum_range_succ']
    _ = ∑ i in Finset.range (a :: t).length, (a :: t).getD i 0 := by simp

/-- Splitting a sum over an initial segment of the naturals. -/
lemma sum_range_add_q (G : Nat → ℚ) (a b : Nat) :
    ∑ i in Finset.range (a + b), G i =
      (∑ i in Finset.range a, G i) + ∑ i in Finset.range b, G (a + i) := by
  induction b with
  | zero => simp
  | succ k ih =>
    rw [Nat.add_succ, Finset.sum_range_succ, ih, Finset.sum_range_succ, add_assoc]

/-- A sum over the flat indexes of the grid as a double sum over rows and
columns. -/
lemma sum_range_mul_q (G : Nat → ℚ) (height width : Nat) :
    ∑ i in Finset.range (height * width), G i =
      ∑ row in Finset.range height, ∑ col in Finset.range width, G (row * width + col) := by
  induction height with
  | zero => simp
  | succ h ih =>
    rw [Nat.succ_mul, sum_range_add_q, ih, Finset.sum_range_succ]

/-- Telescoping of the 1-dimensional insulated stencil: the row (or
column) contributions of left plus right minus twice the center sum to
zero, with the boundary fallbacks of HeatSimulation. -/
lemma stencil1D (g : Nat → ℚ) (n : Nat) :
    ∑ i in Finset.range n,
      ((if 0 < i then g (i - 1) else g i) + (if i < n - 1 then g (i + 1) else g i)
        - 2 * g i) = 0 := by
  cases n with
  | zero => simp
  | succ m =>
    have hsplit : ∀ i, (if 0 < i then g (i - 1) else g i) + (if i < m + 1 - 1 then g (i + 1) else g i)
        - 2 * g i
        = ((if 0 < i then g (i - 1) else g i) + (if i < m then g (i + 1) else g i)) - 2 * g i := by
      intro i; rfl
    have hA : ∑ i in Finset.range (m + 1), (if 0 < i then g (i - 1) else g i)
        = (∑ i in Finset.range m, g i) + g 0 := by
      rw [Finset.sum_range_succ']
      simp
    have hB : ∑ i in Finset.range (m + 1), (if i < m then g (i + 1) else g i)
        = (∑ i in Finset.range m, g (i + 1)) + g m := by
      rw [Finset.sum_range_succ]
      simp [Finset.sum_congr rfl (fun i hi => if_pos (Finset.mem_range.mp hi))]
    have hS : ∑ i in Finset.range (m + 1), g i = (∑ i in Finset.range m, g (i + 1)) + g 0 :=
      Finset.sum_range_succ' g m
    have hS2 : ∑ i in Finset.range (m + 1), g i = (∑ i in Finset.range m, g i) + g m :=
      Finset.sum_range_succ g m
    calc ∑ i in Finset.range (m + 1),
        ((if 0 < i then g (i - 1) else g i) + (if i < m + 1 - 1 then g (i + 1) else g i) - 2 * g i)
        = ∑ i in Finset.range (m + 1),
            (((if 0 < i then g (i - 1) else g i) + (if i < m then g (i + 1) else g i)) - 2 * g i) := by
          exact Finset.sum_congr rfl (fun i _ => hsplit i)
    _ = (∑ i in Finset.range (m + 1),
          ((if 0 < i then g (i - 1) else g i) + (if i < m then g (i + 1) else g i)))
        - ∑ i in Finset.range (m + 1), 2 * g i := Finset.sum_sub_distrib
    _ = ((∑ i in Finset.range (m + 1), (if 0 < i then g (i - 1) else g i))
        + ∑ i in Finset.range (m + 1), (if i < m then g (i + 1) else g i))
        - 2 * ∑ i in Finset.range (m + 1), g i := by
          rw [Finset.sum_add_distrib, Finset.mul_sum]
    _ = (((∑ i in Finset.range m, g i) + g 0) + ((∑ i in Finset.range m, g (i + 1)) + g m))
        - 2 * ∑ i in Finset.range (m + 1), g i := by rw [hA, hB]
    _ = 0 := by
          have e1 : ∑ i in Finset.range m, g i = (∑ i in Finset.range (m + 1), g i) - g m := by
            rw [hS2]; ring
          have e2 : ∑ i in Finset.range m, g (i + 1) = (∑ i in Finset.range (m + 1), g i) - g 0 := by
            rw [hS]; ring
          rw [e1, e2]; ring

/-- A double sum of a pointwise sum of two contributions vanishes when
the first vanishes per row and the second per column. -/
lemma sum_split_two (height width : Nat) (H V : Nat → Nat → ℚ)
    (hH : ∀ row, ∑ col in Finset.range width, H row col = 0)
    (hV : ∀ col, ∑ row in Finset.range height, V row col = 0) :
    ∑ row in Finset.range height, ∑ col in Finset.range width,
      (H row col + V row col) = 0 := by
  have step1 : ∑ row in Finset.range height, ∑ col in Finset.range width,
      (H row col + V row col)
      = ∑ row in Finset.range height, ∑ col in Finset.range width, V row col := by
    refine Finset.sum_congr rfl (fun row _ => ?_)
    rw [Finset.sum_add_distrib, hH row, zero_add]
  rw [step1, Finset.sum_comm]
  exact Finset.sum_eq_zero (fun col _ => hV col)

/-- Distributing a double sum over a pointwise addition. -/
lemma double_sum_add (height width : Nat) (A B : Nat → Nat → ℚ) :
    ∑ row in Finset.range height, ∑ col in Finset.range width, (A row col + B row col)
      = (∑ row in Finset.range height, ∑ col in Finset.range width, A row col)
        + ∑ row in Finset.range height, ∑ col in Finset.range width, B row col := by
  rw [← Finset.sum_add_distrib]
  exact Finset.sum_congr rfl (fun row _ => Finset.sum_add_distrib)

/-- Pulling a constant factor out of a double sum. -/
lemma double_sum_mul (height width : Nat) (c : ℚ) (A : Nat → Nat → ℚ) :
    ∑ row in Finset.range height, ∑ col in Finset.range width, c * A row col
      = c * ∑ row in Finset.range height, ∑ col in Finset.range width, A row col := by
  rw [Finset.mul_sum]
  exact Finset.sum_congr rfl (fun row _ => (Finset.mul_sum _ _ _).symm)

/-- The insulated 5-point stencil redistributes: the Laplacians of all
cells sum to zero (horizontal and vertical telescoping per row and per
column). -/
lemma sum_laplacian_zero (width height : Nat) (gridTemps : List ℚ) :
    ∑ row in Finset.range height, ∑ col in Finset.range width,
      laplacian width height gridTemps row col = 0 := by
  have hlap : ∀ row col, laplacian width height gridTemps row col =
      (((if 0 < col then gridTemps.getD (row * width + (col - 1)) 0
          else gridTemps.getD (row * width + col) 0)
        + (if col < width - 1 then gridTemps.getD (row * width + (col + 1)) 0
          else gridTemps.getD (row * width + col) 0)
        - 2 * gridTemps.getD (row * width + col) 0)
      + ((if 0 < row then gridTemps.getD ((row - 1) * width + col) 0
          else gridTemps.getD (row * width + col) 0)
        + (if row < height - 1 then gridTemps.getD ((row + 1) * width + col) 0
          else gridTemps.getD (row * width + col) 0)
        - 2 * gridTemps.getD (row * width + col) 0)) := by
    intro row col
    simp only [laplacian]
    ring
  have hH : ∀ row, ∑ col in Finset.range width,
      ((if 0 < col then gridTemps.getD (row * width + (col - 1)) 0
          else gridTemps.getD (row * width + col) 0)
        + (if col < width - 1 then gridTemps.getD (row * width + (col + 1)) 0
          else gridTemps.getD (row * width + col) 0)
        - 2 * gridTemps.getD (row * width + col) 0) = 0 := by
    intro row
    exact stencil1D (fun c => gridTemps.getD (row * width + c) 0) width
  have hV : ∀ col, ∑ row in Finset.range height,
      ((if 0 < row then gridTemps.getD ((row - 1) * width + col) 0
          else gridTemps.getD (row * width + col) 0)
        + (if row < height - 1 then gridTemps.getD ((row + 1) * width + col) 0
          else gridTemps.getD (row * width + col) 0)
        - 2 * gridTemps.getD (row * width + col) 0) = 0 := by
    intro col
    exact stencil1D (fun r => gridTemps.getD (r * width + col) 0) height
  refine Eq.trans (Finset.sum_congr rfl (fun row _ =>
    Finset.sum_congr rfl (fun col _ => hlap row col))) ?_
  exact sum_split_two height width _ _ hH hV

set_option maxHeartbeats 1000000 in
/-- Conservation of the total temperature for the unpinned update: a
single lemma about newTemps with an empty heatSources record. -/
lemma newTemps_sum_conservation (width height : Nat) (gridTemps : List ℚ)
    (delta diffusionRate : ℚ) (hlen : gridTemps.length = width * height) :
    (newTemps width height gridTemps [] delta diffusionRate).sum = gridTemps.sum := by
  have hlen2 : (newTemps width height gridTemps [] delta diffusionRate).length
      = width * height := by
    rw [newTemps_length, hlen]
  have hstep : ∀ row col, row < height → col < width →
      (newTemps width height gridTemps [] delta diffusionRate).getD (row * width + col) 0
        = gridTemps.getD (row * width + col) 0
          + diffusionRate * delta * laplacian width height gridTemps row col := by
    intro row col hr hc
    rw [newTemps_getD width height gridTemps [] delta diffusionRate hlen row col hr hc]
    rfl
  calc (newTemps width height gridTemps [] delta diffusionRate).sum
      = ∑ i in Finset.range (newTemps width height gridTemps [] delta diffusionRate).length,
          (newTemps width height gridTemps [] delta diffusionRate).getD i 0 :=
        list_sum_getD _
    _ = ∑ i in Finset.range (height * width),
          (newTemps width height gridTemps [] delta diffusionRate).getD i 0 := by
        rw [hlen2, Nat.mul_comm]
    _ = ∑ row in Finset.range height, ∑ col in Finset.range width,
          (newTemps width height gridTemps [] delta diffusionRate).getD (row * width + col) 0 :=
        sum_range_mul_q _ height width
    _ = ∑ row in Finset.range height, ∑ col in Finset.range width,
          (gridTemps.getD (row * width + col) 0
            + diffusionRate * delta * laplacian width height gridTemps row col) := by
        exact Finset.sum_congr rfl (fun row hrow => Finset.sum_congr rfl (fun col hcol =>
          hstep row col (Finset.mem_range.mp hrow) (Finset.mem_range.mp hcol)))
    _ = (∑ row in Finset.range height, ∑ col in Finset.range width,
          gridTemps.getD (row * width + col) 0)
        + diffusionRate * delta * (∑ row in Finset.range height, ∑ col in Finset.range width,
          laplacian width height gridTemps row col) := by
        rw [double_sum_add height width _ _, double_sum_mul height width (diffusionRate * delta) _]
    _ = ∑ row in Finset.range height, ∑ col in Finset.range width,
          gridTemps.getD (row * width + col) 0 := by
        rw [sum_laplacian_zero]
        ring
    _ = ∑ i in Finset.range (height * width), gridTemps.getD i 0 :=
        (sum_range_mul_q (fun i => gridTemps.getD i 0) height width).symm
    _ = ∑ i in Finset.range gridTemps.length, gridTemps.getD i 0 := by
        rw [hlen, Nat.mul_comm]
    _ = gridTemps.sum := (list_sum_getD _).symm

/-- Lookup of the freshly inserted key in the heatSources record. -/
lemma lookupHS_hsInsert (hs : HS) (key : Nat × Nat) (v : ℚ) :
    lookupHS (hsInsert hs key v) key.1 key.2 = some v := by
  cases key with
  | mk r c => simp [lookupHS, hsInsert, List.lookup]

/-- The length of the rebuilt grid is the product of the dimensions. -/
lemma buildTemps_length (height width : Nat) (ctrls : Nat → Nat → Option ℚ) (ambient : ℚ) :
    (buildTemps height width ctrls ambient).length = height * width := by
  unfold buildTemps
  induction height with
  | zero => simp
  | succ h ih =>
    rw [List.range_succ, List.flatMap_append, List.length_append, ih]
    simp [Nat.succ_mul]

/-- Claim C1: for a step with positive deltaTime, every cell not present
in heatSources receives T + diffusionRate * deltaTime * (T_left + T_right
+ T_up + T_down - 4 * T), where each neighbor value falls back to T itself
when the neighbor would lie outside the grid (insulated zero-flux
boundary). -/
theorem claim1_unpinned_stencil (width height : Nat) (gridTemps : List ℚ) (heatSources : HS)
    (delta diffusionRate : ℚ) (row col : Nat)
    (_hdt : 0 < delta) (hr : row < height) (hc : col < width)
    (hpin : lookupHS heatSources row col = none)
    (hlen : gridTemps.length = width * height) :
    (newTemps width height gridTemps heatSources delta diffusionRate).getD (row * width + col) 0
      = gridTemps.getD (row * width + col) 0
        + diffusionRate * delta *
          ((if 0 < col then gridTemps.getD (row * width + (col - 1)) 0
              else gridTemps.getD (row * width + col) 0)
          + (if col + 1 < width then gridTemps.getD (row * width + (col + 1)) 0
              else gridTemps.getD (row * width + col) 0)
          + (if 0 < row then gridTemps.getD ((row - 1) * width + col) 0
              else gridTemps.getD (row * width + col) 0)
          + (if row + 1 < height then gridTemps.getD ((row + 1) * width + col) 0
              else gridTemps.getD (row * width + col) 0)
          - 4 * gridTemps.getD (row * width + col) 0) := by
  rw [newTemps_getD width height gridTemps heatSources delta diffusionRate hlen row col hr hc]
  have e1 : (col < width - 1) = (col + 1 < width) := by
    apply propext
    omega
  have e2 : (row < height - 1) = (row + 1 < height) := by
    apply propext
    omega
  simp only [stepCell, hpin, cellDT, laplacian, e1, e2]

/-- Claim C2: a cell present in heatSources holds exactly its pinned
value after one step and after any positive number of steps, for every
deltaTime and diffusionRate and whatever its neighbors hold. -/
theorem claim2_pinned_invariance (f : GridField) (delta diffusionRate : ℚ) (row col : Nat)
    (v : ℚ) (hr : row < f.height) (hc : col < f.width)
    (hpin : lookupHS f.heatSources row col = some v)
    (hlen : f.temps.length = f.width * f.height) :
    ∀ n, ((iterateStep f delta diffusionRate (n + 1)).temps).getD (row * f.width + col) 0 = v := by
  have hinv : ∀ n, (iterateStep f delta diffusionRate n).width = f.width ∧
      (iterateStep f delta diffusionRate n).height = f.height ∧
      (iterateStep f delta diffusionRate n).heatSources = f.heatSources ∧
      (iterateStep f delta diffusionRate n).temps.length = f.temps.length := by
    intro n
    induction n with
    | zero => exact ⟨rfl, rfl, rfl, rfl⟩
    | succ k ih =>
      rcases ih with ⟨h1, h2, h3, h4⟩
      refine ⟨h1, h2, h3, ?_⟩
      show (newTemps _ _ _ _ _ _).length = _
      rw [newTemps_length, h4]
  intro n
  rcases hinv n with ⟨h1, h2, h3, h4⟩
  show (newTemps (iterateStep f delta diffusionRate n).width
      (iterateStep f delta diffusionRate n).height
      (iterateStep f delta diffusionRate n).temps
      (iterateStep f delta diffusionRate n).heatSources delta diffusionRate).getD
      (row * f.width + col) 0 = v
  rw [h1, h2, h3]
  rw [newTemps_getD f.width f.height _ _ delta diffusionRate (h4.trans hlen) row col hr hc]
  simp [stepCell, hpin]

/-- Claim C3: with an empty heatSources record the total of all cell
temperatures is exactly preserved by a step, for every deltaTime and
diffusionRate (the insulated stencil only redistributes heat). -/
theorem claim3_conservation (f : GridField) (delta diffusionRate : ℚ)
    (hempty : f.heatSources = []) (hlen : f.temps.length = f.width * f.height) :
    (step f delta diffusionRate).1.temps.sum = f.temps.sum := by
  show (newTemps f.width f.height f.temps f.heatSources delta diffusionRate).sum = f.temps.sum
  rw [hempty]
  exact newTemps_sum_conservation f.width f.height f.temps delta diffusionRate hlen

/-- Claim C4 (amended): the code has no special case for non-positive
deltaTime; what holds is that with deltaTime = 0 every non-pinned cell is
unchanged and maxDiff is 0, while pinned cells are still overwritten with
their pinned value, and a negative deltaTime simply runs the stencil with
the negative factor. -/
theorem claim4_zero_delta (width height : Nat) (gridTemps : List ℚ) (heatSources : HS)
    (diffusionRate : ℚ) (hlen : gridTemps.length = width * height) :
    maxDiff width height gridTemps heatSources 0 diffusionRate = 0 ∧
    (∀ row col, row < height → col < width → lookupHS heatSources row col = none →
      (newTemps width height gridTemps heatSources 0 diffusionRate).getD (row * width + col) 0
        = gridTemps.getD (row * width + col) 0) ∧
    (∀ row col v, row < height → col < width → lookupHS heatSources row col = some v →
      (newTemps width height gridTemps heatSources 0 diffusionRate).getD (row * width + col) 0
        = v) := by
  have hdt0 : ∀ row col, cellDT width height gridTemps 0 diffusionRate row col = 0 := by
    intro row col
    simp [cellDT]
  refine ⟨?_, ?_, ?_⟩
  · rw [maxDiff_eq_maxFoldF]
    rcases maxFoldF_eq_start_or_mem
        (fun p => match lookupHS heatSources p.1 p.2 with
          | some _ => none
          | none => some |cellDT width height gridTemps 0 diffusionRate p.1 p.2|)
        (allCells height width) 0 with h | ⟨p, _, hgp⟩
    · exact h
    · cases hv : lookupHS heatSources p.1 p.2 with
      | some q => simp [hv] at hgp
      | none =>
        simp only [hv] at hgp
        rw [← Option.some_inj.mp hgp, hdt0, abs_zero]
  · intro row col hr hc hpin
    rw [newTemps_getD width height gridTemps heatSources 0 diffusionRate hlen row col hr hc]
    simp [stepCell, hpin, hdt0]
  · intro row col v hr hc hpin
    rw [newTemps_getD width height gridTemps heatSources 0 diffusionRate hlen row col hr hc]
    simp [stepCell, hpin]

/-- Claim C4 counterexample: with a negative deltaTime the step is not a
no-op — on the 1 by 2 grid [0, 100] with no sources and deltaTime -1 the
first cell changes. -/
theorem claim4_counterexample :
    (newTemps 2 1 [0, 100] [] (-1) (1/10)).getD (0 * 2 + 0) 0
      ≠ ([0, 100] : List ℚ).getD (0 * 2 + 0) 0 := by
  rw [newTemps_getD 2 1 [0, 100] [] (-1) (1/10) (by decide) 0 0 (by decide) (by decide)]
  norm_num [stepCell, cellDT, laplacian, lookupHS, List.lookup, List.getD]

/-- Claim C5: maxDiff bounds the absolute per-cell change of every
non-pinned cell, is attained at one of them unless it is 0, and is 0 when
every cell is pinned (a fully pinned grid converges in one step). -/
theorem claim5_maxAbsoluteChange (width height : Nat) (gridTemps : List ℚ) (heatSources : HS)
    (delta diffusionRate : ℚ) :
    (∀ row col, row < height → col < width → lookupHS heatSources row col = none →
      |cellDT width height gridTemps delta diffusionRate row col|
        ≤ maxDiff width height gridTemps heatSources delta diffusionRate) ∧
    (maxDiff width height gridTemps heatSources delta diffusionRate = 0 ∨
      ∃ row col, row < height ∧ col < width ∧ lookupHS heatSources row col = none ∧
        maxDiff width height gridTemps heatSources delta diffusionRate
          = |cellDT width height gridTemps delta diffusionRate row col|) ∧
    ((∀ row col, row < height → col < width → lookupHS heatSources row col ≠ none) →
      maxDiff width height gridTemps heatSources delta diffusionRate = 0) := by
  rw [maxDiff_eq_maxFoldF]
  refine ⟨?_, ?_, ?_⟩
  · intro row col hr hc hpin
    refine maxFoldF_le_of_mem _ (allCells height width) 0 (row, col) _
      (mem_allCells.mpr ⟨hr, hc⟩) ?_
    simp [hpin]
  · rcases maxFoldF_eq_start_or_mem
        (fun p => match lookupHS heatSources p.1 p.2 with
          | some _ => none
          | none => some |cellDT width height gridTemps delta diffusionRate p.1 p.2|)
        (allCells height width) 0 with h | ⟨p, hp, hgp⟩
    · exact Or.inl h
    · rcases mem_allCells.mp hp with ⟨h1, h2⟩
      cases hv : lookupHS heatSources p.1 p.2 with
      | some q => simp [hv] at hgp
      | none =>
        refine Or.inr ⟨p.1, p.2, h1, h2, hv, ?_⟩
        simp only [hv] at hgp
        exact (Option.some.injEq _ _ ▸ hgp).symm
  · intro hall
    apply maxFoldF_all_none
    intro p hp
    rcases mem_allCells.mp hp with ⟨h1, h2⟩
    cases hv : lookupHS heatSources p.1 p.2 with
    | some q => simp [hv]
    | none => exact absurd hv (hall p.1 p.2 h1 h2)

/-- Claim C6 (amended): pinning records the cell's current temperature as
the forced value (so the pinned value and the displayed temperature agree
immediately) but writes nothing into gridTemps; editing the forced value
likewise updates only the heatSources record, the cell's temperature is
untouched until the next simulation frame. -/
theorem claim6_pin_edit (s : AppState) (row col : Nat) (v : ℚ) :
    (pinCell s row col).gridTemps = s.gridTemps ∧
    lookupHS (pinCell s row col).heatSources row col
      = some (s.gridTemps.getD (row * s.width + col) 22) ∧
    (editSourceValue s row col v).gridTemps = s.gridTemps ∧
    lookupHS (editSourceValue s row col v).heatSources row col = some v := by
  refine ⟨rfl, ?_, rfl, ?_⟩
  · exact lookupHS_hsInsert s.heatSources (row, col) _
  · exact lookupHS_hsInsert s.heatSources (row, col) v

/-- Claim C6 counterexample: editing the forced value of the pinned cell
(0,0) from 0 to 5 does not update the cell's temperature — the forced
value reads 5 while the temperature still reads 0. -/
theorem claim6_counterexample :
    lookupHS (editSourceValue ⟨1, 1, [0], [((0, 0), 0)], true⟩ 0 0 5).heatSources 0 0
      = some 5 ∧
    (editSourceValue ⟨1, 1, [0], [((0, 0), 0)], true⟩ 0 0 5).gridTemps.getD (0 * 1 + 0) 0
      ≠ 5 := by
  constructor
  · decide
  · decide

/-- Claim C7 (amended): a dimension change rebuilds gridTemps and
restarts the simulation but leaves the heatSources record untouched, so
stale keys are not dropped. -/
theorem claim7_resize_keeps_sources (s : AppState) (height width : Nat)
    (ctrls : Nat → Nat → Option ℚ) :
    (changeDimensions s height width ctrls).heatSources = s.heatSources ∧
    (changeDimensions s height width ctrls).gridTemps = buildTemps height width ctrls 22 ∧
    (changeDimensions s height width ctrls).isSimulating = true :=
  ⟨rfl, rfl, rfl⟩

/-- Claim C7 counterexample: pinning cell (5,5) on the initial 10 by 10
grid and then resizing to 2 by 2 yields a reachable state whose
heatSources still contains the key (5,5), which is outside the current
dimensions. -/
theorem claim7_counterexample :
    Reachable (changeDimensions (pinCell initState 5 5) 2 2 (fun _ _ => none)) ∧
    ((5, 5), (22 : ℚ)) ∈
      (changeDimensions (pinCell initState 5 5) 2 2 (fun _ _ => none)).heatSources ∧
    ¬ (5 < (changeDimensions (pinCell initState 5 5) 2 2 (fun _ _ => none)).height) := by
  refine ⟨?_, by decide, by decide⟩
  exact Reachable.resize _ 2 2 _ (Reachable.pin initState 5 5 Reachable.init
    (by decide) (by decide))

/-- Claim C8 (amended): the construction path performs no validation and
raises nothing; a non-positive width or height yields a zero-cell grid
(replacing the previous one), and in general the rebuilt grid has
toNat height * toNat width cells. -/
theorem claim8_no_validation (height width : ℤ) (ctrls : Nat → Nat → Option ℚ)
    (ambient : ℚ) :
    (buildTempsZ height width ctrls ambient).length = height.toNat * width.toNat ∧
    (height ≤ 0 ∨ width ≤ 0 → buildTempsZ height width ctrls ambient = []) := by
  constructor
  · exact buildTemps_length height.toNat width.toNat ctrls ambient
  · intro hle
    have h0 : height.toNat = 0 ∨ width.toNat = 0 := by
      rcases hle with h | h
      · exact Or.inl (Int.toNat_eq_zero.mpr h)
      · exact Or.inr (Int.toNat_eq_zero.mpr h)
    have hlen0 : (buildTempsZ height width ctrls ambient).length = 0 := by
      rw [buildTempsZ, buildTemps_length]
      rcases h0 with h | h <;> simp [h]
    exact List.length_eq_zero.mp hlen0

/-- Claim C8 counterexample: with height -2 the rebuild silently returns
the empty grid instead of failing and keeping the previous grid — here
the previous valid 1 by 2 grid [1, 2] is not kept. -/
theorem claim8_counterexample :
    buildTempsZ (-2) 5 (fun _ _ => none) 22 = [] ∧
    buildTempsZ (-2) 5 (fun _ _ => none) 22 ≠ [1, 2] := by
  constructor
  · decide
  · decide

/-- Claim C9: a step returns a snapshot with unchanged dimensions and
heatSources, of row-major length width * height, whose every in-range
entry is the per-cell value computed from the pre-step array (the input
list itself is never written, every write goes to the copy). -/
theorem claim9_snapshot (f : GridField) (delta diffusionRate : ℚ)
    (hlen : f.temps.length = f.width * f.height) :
    (step f delta diffusionRate).1.width = f.width ∧
    (step f delta diffusionRate).1.height = f.height ∧
    (step f delta diffusionRate).1.heatSources = f.heatSources ∧
    (step f delta diffusionRate).1.temps.length = f.width * f.height ∧
    ∀ row col, row < f.height → col < f.width →
      (step f delta diffusionRate).1.temps.getD (row * f.width + col) 0
        = stepCell f.width f.height f.temps f.heatSources delta diffusionRate row col := by
  refine ⟨rfl, rfl, rfl, ?_, ?_⟩
  · show (newTemps _ _ _ _ _ _).length = _
    rw [newTemps_length, hlen]
  · intro row col hr hc
    exact newTemps_getD _ _ _ _ _ _ hlen row col hr hc

/-- Claim C10: the update is Jacobi-style — every neighbor read comes
from the pre-step snapshot, so visiting the cells in the reverse order
produces the identical snapshot, and the value written at a cell depends
on the heatSources record only through that cell's own entry (a pinned
neighbor contributes its pre-step temperature, not its pinned value). -/
theorem claim10_jacobi (width height : Nat) (gridTemps : List ℚ) (heatSources : HS)
    (delta diffusionRate : ℚ) (hlen : gridTemps.length = width * height) :
    newTempsRev width height gridTemps heatSources delta diffusionRate
      = newTemps width height gridTemps heatSources delta diffusionRate ∧
    ∀ (hs2 : HS) (row col : Nat), lookupHS hs2 row col = lookupHS heatSources row col →
      stepCell width height gridTemps hs2 delta diffusionRate row col
        = stepCell width height gridTemps heatSources delta diffusionRate row col := by
  constructor
  · apply list_eq_of_getD
    · rw [newTempsRev_length, newTemps_length]
    · intro i hi
      rw [newTempsRev_length, hlen] at hi
      by_cases hw : width = 0
      · subst hw
        simp at hi
      · have hw' : 0 < width := Nat.pos_of_ne_zero hw
        have hiw : i % width < width := Nat.mod_lt _ hw'
        have hdiv : i / width < height := by
          rw [Nat.div_lt_iff_lt_mul hw']
          exact Nat.mul_comm width height ▸ hi
        have hdecomp : i / width * width + i % width = i := Nat.div_add_mod' i width
        rw [← hdecomp,
          newTempsRev_getD _ _ _ _ _ _ hlen _ _ hdiv hiw,
          newTemps_getD _ _ _ _ _ _ hlen _ _ hdiv hiw]
  · intro hs2 row col hEq
    simp only [stepCell, hEq]

/-- Claim C1 witness: the spec scenario, a 3 by 1 grid [0, 100, 0] with
deltaTime 1 and rate 1/10; the center cell becomes 80. -/
theorem claim1_witness :
    (newTemps 3 1 [0, 100, 0] [] 1 (1/10)).getD (0 * 3 + 1) 0 = 80 := by
  rw [claim1_unpinned_stencil 3 1 [0, 100, 0] [] 1 (1/10) 0 1 (by norm_num) (by decide)
    (by decide) (by decide) (by decide)]
  norm_num [List.getD]

/-- Claim C2 witness: the spec scenario, cell (0,0) pinned to 99 on a 2
by 2 all-zero grid still reads 99 after two steps. -/
theorem claim2_witness :
    ((iterateStep ⟨2, 2, [0, 0, 0, 0], [((0, 0), 99)]⟩ 1 (1/10) 2).temps).getD (0 * 2 + 0) 0
      = 99 :=
  claim2_pinned_invariance ⟨2, 2, [0, 0, 0, 0], [((0, 0), 99)]⟩ 1 (1/10) 0 0 99
    (by decide) (by decide) (by decide) (by decide) 1

/-- Claim C3 witness: conservation on the concrete 1 by 2 grid [0, 100]
with no sources. -/
theorem claim3_witness :
    (step ⟨2, 1, [0, 100], []⟩ 1 (1/10)).1.temps.sum
      = (⟨2, 1, [0, 100], []⟩ : GridField).temps.sum :=
  claim3_conservation ⟨2, 1, [0, 100], []⟩ 1 (1/10) rfl (by decide)

/-- Claim C4 witness: a zero deltaTime yields maxDiff 0 on the concrete
1 by 2 grid. -/
theorem claim4_witness : maxDiff 2 1 [0, 100] [] 0 (1/10) = 0 :=
  (claim4_zero_delta 2 1 [0, 100] [] (1/10) (by decide)).1

/-- Claim C5 witness: a fully pinned 1 by 1 grid has maxDiff 0. -/
theorem claim5_witness : maxDiff 1 1 [5] [((0, 0), 7)] 2 (1/10) = 0 := by
  apply (claim5_maxAbsoluteChange 1 1 [5] [((0, 0), 7)] 2 (1/10)).2.2
  intro row col hr hc
  have hr0 : row = 0 := by omega
  have hc0 : col = 0 := by omega
  subst hr0
  subst hc0
  decide

/-- Claim C8 witness: a negative height yields the empty grid. -/
theorem claim8_witness : buildTempsZ (-2) 7 (fun _ _ => none) 22 = [] :=
  (claim8_no_validation (-2) 7 (fun _ _ => none) 22).2 (Or.inl (by decide))

/-- Claim C9 witness: the snapshot of a step on the concrete 1 by 2 grid
has the row-major length 2 * 1. -/
theorem claim9_witness : (step ⟨2, 1, [3, 4], []⟩ 1 (1/10)).1.temps.length = 2 * 1 :=
  (claim9_snapshot ⟨2, 1, [3, 4], []⟩ 1 (1/10) (by decide)).2.2.2.1

/-- Claim C10 witness: reverse visiting order gives the identical
snapshot on a concrete pinned 1 by 2 grid. -/
theorem claim10_witness :
    newTempsRev 2 1 [0, 100] [((0, 0), 5)] 1 (1/10)
      = newTemps 2 1 [0, 100] [((0, 0), 5)] 1 (1/10) :=
  (claim10_jacobi 2 1 [0, 100] [((0, 0), 5)] 1 (1/10) (by decide)).1

